import Mathlib

/-!
Verification of the genome decoder and trait-relation classifier of
`src/app/page.tsx` (a CryptoKitties genome visualiser).

The two functions under study are `splitGenesToQuads` (decimal genome string →
list of 4-character hex trait groups) and `deriveTraitRelation` (three optional
trait groups → inheritance classification).  Both are pure; we embed them
shallowly, modelling the JavaScript built-ins they rely on (`BigInt(string)`,
`BigInt.prototype.toString(16)`, `String.prototype.padStart`,
`Array.prototype.slice(-48)`, `Array.prototype.at(-1)`).
-/

/-- Horner evaluation of a list of decimal digit characters, most significant
first, as `BigInt` reads a decimal literal. -/
def decDigitsToNat (l : List Char) : Nat :=
  l.foldl (fun acc c => acc * 10 + (c.toNat - 48)) 0

/-- Model of JS `BigInt(string)` restricted to the input shapes the decoder's
contract covers: the empty string parses to `0` (as the JS built-in does), an
optional sign followed by decimal digits parses to the denoted integer, and any
other string throws (here: `none`).  The built-in additionally trims whitespace
and accepts `0x`/`0o`/`0b` radix literals; those are outside the decimal-string
contract and not modelled. -/
def parseBigInt (s : String) : Option Int :=
  match s.data with
  | [] => some 0
  | c :: rest =>
    if c = '-' then
      if rest ≠ [] ∧ rest.all Char.isDigit then
        some (-(decDigitsToNat rest : Int))
      else none
    else if c = '+' then
      if rest ≠ [] ∧ rest.all Char.isDigit then
        some ((decDigitsToNat rest : Int))
      else none
    else if (c :: rest).all Char.isDigit then
      some ((decDigitsToNat (c :: rest) : Int))
    else none

/-- The lowercase hexadecimal digit character for `d` (`0`–`9`, then `a`–`f`),
as produced by JS `toString(16)`. -/
def hexDigitChar (d : Nat) : Char :=
  if d < 10 then Char.ofNat (48 + d) else Char.ofNat (87 + d)

/-- Fuel-driven little-endian hex digit extraction; `fuel` bounds the number of
digits produced and is in practice at least the digit count. -/
def toHexRevAux : Nat → Nat → List Char
  | 0, _ => []
  | _ + 1, 0 => []
  | f + 1, n + 1 => hexDigitChar ((n + 1) % 16) :: toHexRevAux f ((n + 1) / 16)

/-- The hex digits of `n`, least significant first, no leading zeros (empty for
`0`). -/
def toHexRev (n : Nat) : List Char :=
  toHexRevAux n n

/-- Model of JS `BigInt.prototype.toString(16)` on a non-negative value:
most-significant-first lowercase hex, `"0"` for zero. -/
def natToHexString (n : Nat) : String :=
  if n = 0 then "0" else ⟨(toHexRev n).reverse⟩

/-- Model of JS `toString(16)` on a signed BigInt: negative values render as a
minus sign followed by the hex rendering of the magnitude. -/
def intToHexString (z : Int) : String :=
  if z < 0 then ⟨'-' :: (natToHexString z.natAbs).data⟩ else natToHexString z.toNat

/-- Model of JS `String.prototype.padStart(w, "0")`: left-pad with zeros up to
length `w`; a string already at least `w` long is returned unchanged. -/
def padStartZeros (w : Nat) (s : String) : String :=
  ⟨List.replicate (w - s.data.length) '0' ++ s.data⟩

/-- Model of JS `Array.prototype.slice(-k)` for `k > 0`: the last `k` elements
(the whole list when it is shorter than `k`). -/
def lastSlice (k : Nat) (l : List Char) : List Char :=
  l.drop (l.length - k)

/-- Model of `splitGenesToQuads` from `src/app/page.tsx`: parse the decimal
string as a BigInt (the `catch` branch yields `[]`), render as hex left-padded
to 64 digits, keep the last 48 nibbles, and build 12 groups of 4 by repeated
`unshift` of slices taken from the right end. -/
def splitGenesToQuads (genesBigIntString : String) : List String :=
  match parseBigInt genesBigIntString with
  | none => []
  | some big =>
    let hex := padStartZeros 64 (intToHexString big)
    let nibbles := hex.data
    let last48 := lastSlice 48 nibbles
    (List.range 12).foldl
      (fun groups i =>
        ((last48.drop (last48.length - (i + 1) * 4)).take 4).asString :: groups)
      []

/-- The five inheritance buckets of `deriveTraitRelation`.  The specification
names the two parent–offspring buckets `matronOffspringShare` and
`sireOffspringShare`; the source literals are `"matronKittenShare"` and
`"sireKittenShare"`. -/
inductive TraitRelation
  | allShare
  | parentsOnlyShare
  | matronKittenShare
  | sireKittenShare
  | mutation
deriving DecidableEq, Repr

/-- Model of JS `q?.at(-1)`: the last character of an optional string, `none`
when the string is absent or empty. -/
def lastChar (q : Option String) : Option Char :=
  match q with
  | none => none
  | some s => s.data.getLast?

/-- The body of `deriveTraitRelation` after the three `at(-1)` extractions:
the JS truthiness test `if (m && s && k)` holds exactly when all three results
are defined, since `at(-1)` never returns an empty string; inside it sits the
four-way dominant-nibble comparison, and every other path returns
`"mutation"`. -/
def classifyNibbles : Option Char → Option Char → Option Char → TraitRelation
  | some m, some s, some k =>
    if m = s ∧ s = k then .allShare
    else if m = s ∧ k ≠ m then .parentsOnlyShare
    else if m = k ∧ s ≠ k then .matronKittenShare
    else if s = k ∧ m ≠ k then .sireKittenShare
    else .mutation
  | _, _, _ => .mutation

/-- Model of `deriveTraitRelation` from `src/app/page.tsx`. -/
def deriveTraitRelation (matronQuad sireQuad kittenQuad : Option String) :
    TraitRelation :=
  classifyNibbles (lastChar matronQuad) (lastChar sireQuad) (lastChar kittenQuad)

/-- A valid non-negative decimal-string input: non-empty and all decimal
digits. -/
def validNonnegDecimal (s : String) : Prop :=
  s.data ≠ [] ∧ s.data.all Char.isDigit

instance (s : String) : Decidable (validNonnegDecimal s) := by
  unfold validNonnegDecimal; infer_instance

/-- A hexadecimal character as the specification means it: a decimal digit or a
lowercase letter `a`–`f`. -/
def isHexChar (c : Char) : Bool :=
  c.isDigit || ('a' ≤ c && c ≤ 'f')

/-- Hex digit `i` (least significant = 0) of `n`. -/
def hexDigit (n i : Nat) : Nat :=
  n / 16 ^ i % 16

/-! ### Hex rendering lemmas -/

lemma toHexRevAux_zero_right (f : Nat) : toHexRevAux f 0 = [] := by
  cases f <;> rfl

lemma toHexRevAux_congr :
    ∀ (n f g : Nat), n ≤ f → n ≤ g → toHexRevAux f n = toHexRevAux g n := by
  intro n
  induction n using Nat.strong_induction_on with
  | _ n ih =>
    intro f g hf hg
    match n, f, g with
    | 0, f, g => rw [toHexRevAux_zero_right, toHexRevAux_zero_right]
    | n + 1, f + 1, g + 1 =>
      show hexDigitChar _ :: toHexRevAux f ((n + 1) / 16) =
        hexDigitChar _ :: toHexRevAux g ((n + 1) / 16)
      have hdiv : (n + 1) / 16 < n + 1 := Nat.div_lt_self (Nat.succ_pos n)
        (by norm_num)
      have hdf : (n + 1) / 16 ≤ f := by omega
      have hdg : (n + 1) / 16 ≤ g := by omega
      rw [ih ((n + 1) / 16) hdiv f ((n + 1) / 16) hdf le_rfl,
        ih ((n + 1) / 16) hdiv g ((n + 1) / 16) hdg le_rfl]

/-- Unfolding rule for `toHexRev` independent of the fuel. -/
lemma toHexRev_eq (n : Nat) :
    toHexRev n =
      if n = 0 then [] else hexDigitChar (n % 16) :: toHexRev (n / 16) := by
  cases n with
  | zero => rfl
  | succ n =>
    show toHexRevAux (n + 1) (n + 1) = _
    simp only [Nat.succ_ne_zero, if_false]
    show hexDigitChar ((n + 1) % 16) :: toHexRevAux n ((n + 1) / 16) = _
    congr 1
    exact toHexRevAux_congr ((n + 1) / 16) n ((n + 1) / 16)
      (by
        have := Nat.div_lt_self (Nat.succ_pos n) (show (1:Nat) < 16 by norm_num)
        omega)
      le_rfl

/-- Digit `i` of the little-endian hex rendering, defaulting to `'0'` past the
end, is the `i`-th hex digit of `n`. -/
lemma toHexRev_getD (n i : Nat) :
    (toHexRev n).getD i '0' = hexDigitChar (hexDigit n i) := by
  induction n using Nat.strong_induction_on generalizing i with
  | _ n ih =>
    rw [toHexRev_eq]
    by_cases h : n = 0
    · subst h
      simp [hexDigit, hexDigitChar, List.getD]
    · rw [if_neg h]
      cases i with
      | zero =>
        show hexDigitChar (n % 16) = hexDigitChar (hexDigit n 0)
        simp [hexDigit]
      | succ i =>
        show (toHexRev (n / 16)).getD i '0' = hexDigitChar (hexDigit n (i + 1))
        rw [ih (n / 16) (Nat.div_lt_self (Nat.pos_of_ne_zero h) (by norm_num)) i]
        congr 1
        simp only [hexDigit]
        rw [Nat.div_div_eq_div_mul, ← pow_succ']

/-- `n` is below `16 ^ (number of hex digits of n)`. -/
lemma toHexRev_lt_pow_length (n : Nat) : n < 16 ^ (toHexRev n).length := by
  induction n using Nat.strong_induction_on with
  | _ n ih =>
    rw [toHexRev_eq]
    by_cases h : n = 0
    · subst h; simp
    · rw [if_neg h]
      have hdiv : n / 16 < n := Nat.div_lt_self (Nat.pos_of_ne_zero h)
        (by norm_num)
      have := ih (n / 16) hdiv
      rw [List.length_cons, pow_succ]
      exact (Nat.div_lt_iff_lt_mul (by norm_num)).mp this

/-- Past its hex digits, `n` has only zero digits. -/
lemma hexDigit_eq_zero_of_length_le (n i : Nat)
    (h : (toHexRev n).length ≤ i) : hexDigit n i = 0 := by
  have hlt : n < 16 ^ i :=
    lt_of_lt_of_le (toHexRev_lt_pow_length n) (Nat.pow_le_pow_right (by norm_num) h)
  simp [hexDigit, Nat.div_eq_of_lt hlt]

/-! ### The padded 48-nibble window -/

lemma getD_replicate_zero (m i : Nat) :
    (List.replicate m '0').getD i '0' = '0' := by
  by_cases h : i < m
  · rw [List.getD_eq_getElem _ _ (by simpa using h), List.getElem_replicate]
  · exact List.getD_eq_default _ _ (by simpa using Nat.le_of_not_lt h)

lemma hexDigitChar_zero : hexDigitChar 0 = '0' := rfl

lemma natToHexString_data (n : Nat) (h : n ≠ 0) :
    (natToHexString n).data = (toHexRev n).reverse := by
  unfold natToHexString
  rw [if_neg h]

/-- The reversed (least-significant-first) padded rendering reads off the hex
digits of `n`, with `'0'` past the end. -/
lemma padded_reverse_getD (n i : Nat) :
    ((padStartZeros 64 (natToHexString n)).data.reverse).getD i '0' =
      hexDigitChar (hexDigit n i) := by
  by_cases h : n = 0
  · subst h
    have hd : (padStartZeros 64 (natToHexString 0)).data = List.replicate 64 '0' := by
      show List.replicate (64 - 1) '0' ++ ['0'] = _
      rw [← List.replicate_succ' 63 '0']
    rw [hd, List.reverse_replicate, getD_replicate_zero]
    simp [hexDigit, hexDigitChar_zero]
  · have hd : (padStartZeros 64 (natToHexString n)).data.reverse =
        toHexRev n ++ List.replicate (64 - (natToHexString n).data.length) '0' := by
      show (List.replicate _ '0' ++ (natToHexString n).data).reverse = _
      rw [List.reverse_append, List.reverse_replicate, natToHexString_data n h,
        List.reverse_reverse]
    rw [hd]
    by_cases hi : i < (toHexRev n).length
    · rw [List.getD_append _ _ _ _ hi, toHexRev_getD]
    · rw [List.getD_append_right _ _ _ _ (Nat.le_of_not_lt hi),
        getD_replicate_zero,
        hexDigit_eq_zero_of_length_le n i (Nat.le_of_not_lt hi),
        hexDigitChar_zero]

lemma padStartZeros_length_ge (w : Nat) (s : String) :
    w ≤ (padStartZeros w s).data.length := by
  show w ≤ (List.replicate (w - s.data.length) '0' ++ s.data).length
  rw [List.length_append, List.length_replicate]
  omega

/-- The most-significant-first 48-character window of hex digits of `n`. -/
def hexWindow (n : Nat) : List Char :=
  ((List.range 48).map (fun i => hexDigitChar (hexDigit n i))).reverse

lemma hexWindow_length (n : Nat) : (hexWindow n).length = 48 := by
  simp [hexWindow]

lemma lastSlice_eq_reverse_take (k : Nat) (l : List Char) :
    lastSlice k l = (l.reverse.take k).reverse := by
  unfold lastSlice
  rw [List.reverse_take, List.reverse_reverse, List.length_reverse]

/-- The last 48 characters of the padded rendering are exactly the hex window
of `n`. -/
lemma lastSlice_padded (n : Nat) :
    lastSlice 48 (padStartZeros 64 (natToHexString n)).data = hexWindow n := by
  rw [lastSlice_eq_reverse_take]
  unfold hexWindow
  congr 1
  apply List.ext_getElem
  · rw [List.length_take, List.length_reverse, List.length_map,
      List.length_range]
    have := padStartZeros_length_ge 64 (natToHexString n)
    omega
  · intro j h₁ h₂
    rw [List.getElem_take, List.getElem_map, List.getElem_range]
    have hj : j < (padStartZeros 64 (natToHexString n)).data.reverse.length := by
      rw [List.length_reverse]
      have := padStartZeros_length_ge 64 (natToHexString n)
      rw [List.length_take, List.length_reverse] at h₁
      omega
    rw [← List.getD_eq_getElem _ '0' hj, padded_reverse_getD]

/-! ### The grouping loop -/

/-- A fold that conses `f i` for `i = 0, …, k-1` builds the reversed map. -/
lemma foldl_cons_range {β : Type} (f : Nat → β) (k : Nat) :
    (List.range k).foldl (fun acc i => f i :: acc) [] =
      ((List.range k).map f).reverse := by
  suffices h : ∀ (acc : List β),
      (List.range k).foldl (fun acc i => f i :: acc) acc =
        ((List.range k).map f).reverse ++ acc by
    simpa using h []
  induction k with
  | zero => intro acc; simp
  | succ k ih =>
    intro acc
    rw [List.range_succ, List.foldl_append, ih, List.map_append,
      List.reverse_append]
    simp

lemma reverse_map_range {β : Type} (f : Nat → β) (k : Nat) :
    ((List.range k).map f).reverse = (List.range k).map (fun i => f (k - 1 - i)) := by
  induction k with
  | zero => simp
  | succ k ih =>
    conv_lhs => rw [List.range_succ]
    conv_rhs => rw [List.range_succ_eq_map]
    rw [List.map_append, List.reverse_append, ih]
    simp only [List.map_cons, List.map_map, List.map_nil, List.reverse_cons,
      List.reverse_nil, List.nil_append, List.singleton_append]
    congr 1
    apply List.map_congr_left
    intro a _
    simp only [Function.comp]
    congr 1
    omega

/-- The source's `unshift` loop over a 48-character window produces the twelve
4-character chunks in most-significant-first order. -/
lemma foldl_groups_eq_chunks (l : List Char) (h : l.length = 48) :
    (List.range 12).foldl
        (fun groups i =>
          ((l.drop (l.length - (i + 1) * 4)).take 4).asString :: groups) [] =
      (List.range 12).map (fun idx => ((l.drop (4 * idx)).take 4).asString) := by
  rw [foldl_cons_range (fun i => ((l.drop (l.length - (i + 1) * 4)).take 4).asString) 12,
    reverse_map_range]
  apply List.map_congr_left
  intro idx hidx
  rw [List.mem_range] at hidx
  have : l.length - (12 - 1 - idx + 1) * 4 = 4 * idx := by omega
  rw [this]

/-- Master characterization: on a successfully parsed non-negative value `n`,
the decoder returns the twelve 4-character chunks of the hex window of `n`. -/
lemma splitGenesToQuads_eq_chunks (s : String) (n : Nat)
    (h : parseBigInt s = some (Int.ofNat n)) :
    splitGenesToQuads s =
      (List.range 12).map
        (fun idx => (((hexWindow n).drop (4 * idx)).take 4).asString) := by
  unfold splitGenesToQuads
  rw [h]
  have hhex : intToHexString (Int.ofNat n) = natToHexString n := by
    unfold intToHexString
    rw [if_neg (by exact Int.not_lt.mpr (Int.ofNat_nonneg n))]
    rfl
  show (List.range 12).foldl _ [] = _
  rw [hhex, lastSlice_padded]
  exact foldl_groups_eq_chunks (hexWindow n) (hexWindow_length n)

/-! ### Parsing and digit facts -/

/-- A valid non-negative decimal string parses to its Horner value. -/
lemma parseBigInt_of_valid (s : String) (h : validNonnegDecimal s) :
    parseBigInt s = some (Int.ofNat (decDigitsToNat s.data)) := by
  rcases h with ⟨hne, hdig⟩
  obtain ⟨c, rest, hs⟩ := List.exists_cons_of_ne_nil hne
  rw [hs] at hdig
  have hc : c.isDigit := List.all_eq_true.mp hdig c (List.mem_cons_self c rest)
  have hcm : ¬(c = '-') := by
    intro e; rw [e] at hc; exact absurd hc (by decide)
  have hcp : ¬(c = '+') := by
    intro e; rw [e] at hc; exact absurd hc (by decide)
  unfold parseBigInt
  rw [hs]
  simp only [if_neg hcm, if_neg hcp, if_pos hdig]
  rfl

/-- Every hex digit value is below 16. -/
lemma hexDigit_lt (n i : Nat) : hexDigit n i < 16 :=
  Nat.mod_lt _ (by norm_num)

lemma isHexChar_hexDigitChar (d : Nat) (h : d < 16) :
    isHexChar (hexDigitChar d) := by
  interval_cases d <;> decide

lemma mem_hexWindow_isHexChar (n : Nat) (c : Char) (hc : c ∈ hexWindow n) :
    isHexChar c := by
  unfold hexWindow at hc
  rw [List.mem_reverse, List.mem_map] at hc
  obtain ⟨i, _, rfl⟩ := hc
  exact isHexChar_hexDigitChar _ (hexDigit_lt n i)

/-- Hex digits below position 48 only depend on the value modulo `2 ^ 192`. -/
lemma hexDigit_mod_2_pow_192 (n i : Nat) (h : i < 48) :
    hexDigit n i = hexDigit (n % 2 ^ 192) i := by
  have h16 : (2 : Nat) ^ 192 = 16 ^ 48 := by
    rw [show (16 : Nat) = 2 ^ 4 from rfl, ← pow_mul]
  have hsplit : (16 : Nat) ^ 48 = 16 ^ i * 16 ^ (48 - i) := by
    rw [← pow_add]
    congr 1
    omega
  unfold hexDigit
  rw [h16, hsplit, Nat.mod_mul_right_div_self,
    Nat.mod_mod_of_dvd _ (dvd_pow_self 16 (by omega : 48 - i ≠ 0))]

/-! ### String join facts -/

lemma foldl_append_data (l : List String) :
    ∀ acc : String, (l.foldl (· ++ ·) acc).data =
      acc.data ++ (l.map String.data).flatten := by
  induction l with
  | nil => intro acc; simp
  | cons s l ih =>
    intro acc
    rw [List.foldl_cons, ih (acc ++ s), List.map_cons, List.flatten_cons,
      String.data_append, List.append_assoc]

lemma join_data (l : List String) :
    (String.join l).data = (l.map String.data).flatten := by
  show (l.foldl (· ++ ·) "").data = _
  rw [foldl_append_data]
  rfl

/-- Joining the twelve 4-chunks of a 48-element list recovers the list. -/
lemma flatten_chunks (k : Nat) :
    ∀ l : List Char, l.length = 4 * k →
      ((List.range k).map (fun idx => (l.drop (4 * idx)).take 4)).flatten = l := by
  induction k with
  | zero =>
    intro l hl
    have : l = [] := List.length_eq_zero.mp (by omega)
    subst this
    simp
  | succ k ih =>
    intro l hl
    rw [List.range_succ_eq_map, List.map_cons, List.flatten_cons, List.map_map]
    have h0 : l.drop (4 * 0) = l := by simp
    rw [h0]
    have hrest : List.map ((fun idx => (l.drop (4 * idx)).take 4) ∘ Nat.succ)
        (List.range k) =
        List.map (fun idx => ((l.drop 4).drop (4 * idx)).take 4)
          (List.range k) := by
      apply List.map_congr_left
      intro a _
      simp only [Function.comp]
      rw [List.drop_drop]
      congr 2
      omega
    rw [hrest, ih (l.drop 4) (by rw [List.length_drop]; omega),
      List.take_append_drop]

/-! ### Classifier lemmas -/

/-- With all three groups present, `deriveTraitRelation` reduces to the
if-chain on the three dominant nibbles. -/
lemma deriveTraitRelation_some (mq sq kq : String) (m s k : Char)
    (hm : mq.data.getLast? = some m) (hs : sq.data.getLast? = some s)
    (hk : kq.data.getLast? = some k) :
    deriveTraitRelation (some mq) (some sq) (some kq) =
      if m = s ∧ s = k then .allShare
      else if m = s ∧ k ≠ m then .parentsOnlyShare
      else if m = k ∧ s ≠ k then .matronKittenShare
      else if s = k ∧ m ≠ k then .sireKittenShare
      else .mutation := by
  unfold deriveTraitRelation
  rw [show lastChar (some mq) = some m from hm,
    show lastChar (some sq) = some s from hs,
    show lastChar (some kq) = some k from hk]
  rfl

/-- **C1.** With matron, sire and offspring groups all present and non-empty,
the classifier follows the specified dominant-nibble case split, and the five
worked examples of the specification hold. -/
theorem classifier_dominant_nibble_cases (mq sq kq : String) (m s k : Char)
    (hm : mq.data.getLast? = some m) (hs : sq.data.getLast? = some s)
    (hk : kq.data.getLast? = some k) :
    ((m = s ∧ s = k) →
        deriveTraitRelation (some mq) (some sq) (some kq) = .allShare) ∧
    ((m = s ∧ k ≠ m) →
        deriveTraitRelation (some mq) (some sq) (some kq) = .parentsOnlyShare) ∧
    ((m = k ∧ s ≠ k) →
        deriveTraitRelation (some mq) (some sq) (some kq) = .matronKittenShare) ∧
    ((s = k ∧ m ≠ k) →
        deriveTraitRelation (some mq) (some sq) (some kq) = .sireKittenShare) ∧
    ((m ≠ s ∧ m ≠ k ∧ s ≠ k) →
        deriveTraitRelation (some mq) (some sq) (some kq) = .mutation) ∧
    deriveTraitRelation (some "1234") (some "5674") (some "9994") = .allShare ∧
    deriveTraitRelation (some "1235") (some "5675") (some "9996") =
      .parentsOnlyShare ∧
    deriveTraitRelation (some "1235") (some "5676") (some "9995") =
      .matronKittenShare ∧
    deriveTraitRelation (some "1236") (some "5675") (some "9995") =
      .sireKittenShare ∧
    deriveTraitRelation (some "1236") (some "5677") (some "9998") =
      .mutation := by
  rw [deriveTraitRelation_some mq sq kq m s k hm hs hk]
  refine ⟨?_, ?_, ?_, ?_, ?_, by decide, by decide, by decide, by decide,
    by decide⟩ <;>
    · intro h
      split_ifs <;> simp_all

/-- Witness for C1 at the first worked example. -/
theorem classifier_dominant_nibble_cases_witness :
    deriveTraitRelation (some "1234") (some "5674") (some "9994") =
      .allShare :=
  (classifier_dominant_nibble_cases "1234" "5674" "9994" '4' '4' '4'
    (by decide) (by decide) (by decide)).1 ⟨rfl, rfl⟩

/-- **C5.** If any of the three groups is absent, the classifier returns
`mutation`. -/
theorem classifier_absent_input_mutation (mq sq kq : Option String)
    (h : mq = none ∨ sq = none ∨ kq = none) :
    deriveTraitRelation mq sq kq = .mutation := by
  unfold deriveTraitRelation
  rcases h with h | h | h <;> subst h
  · cases lastChar sq <;> cases lastChar kq <;> rfl
  · cases lastChar mq <;> cases lastChar kq <;> rfl
  · cases lastChar mq <;> cases lastChar sq <;> rfl

/-- Witness for C5 with the matron group absent. -/
theorem classifier_absent_input_mutation_witness :
    deriveTraitRelation none (some "5674") (some "9994") = .mutation :=
  classifier_absent_input_mutation none (some "5674") (some "9994")
    (Or.inl rfl)

/-- **C9.** The classifier's value depends only on the dominant (last)
character of each group: two triples of non-empty groups with equal dominant
nibbles classify identically. -/
theorem classifier_depends_only_on_dominant
    (mq sq kq mq' sq' kq' : String)
    (h₁ : mq ≠ "") (h₂ : sq ≠ "") (h₃ : kq ≠ "")
    (h₄ : mq' ≠ "") (h₅ : sq' ≠ "") (h₆ : kq' ≠ "")
    (em : mq.data.getLast? = mq'.data.getLast?)
    (es : sq.data.getLast? = sq'.data.getLast?)
    (ek : kq.data.getLast? = kq'.data.getLast?) :
    deriveTraitRelation (some mq) (some sq) (some kq) =
      deriveTraitRelation (some mq') (some sq') (some kq') := by
  unfold deriveTraitRelation
  rw [show lastChar (some mq) = lastChar (some mq') from em,
    show lastChar (some sq) = lastChar (some sq') from es,
    show lastChar (some kq) = lastChar (some kq') from ek]

/-- Witness for C9: differing recessive nibbles, equal dominant nibbles. -/
theorem classifier_depends_only_on_dominant_witness :
    deriveTraitRelation (some "1234") (some "5674") (some "9994") =
      deriveTraitRelation (some "aaa4") (some "bbb4") (some "ccc4") :=
  classifier_depends_only_on_dominant "1234" "5674" "9994"
    "aaa4" "bbb4" "ccc4" (by decide) (by decide) (by decide) (by decide)
    (by decide) (by decide) (by decide) (by decide) (by decide)

/-! ### Decoder claims -/

lemma foldl_cons_range_length {β : Type} (f : Nat → β) (k : Nat) :
    ((List.range k).foldl (fun acc i => f i :: acc) []).length = k := by
  rw [foldl_cons_range]
  simp

/-- **C2.** On a valid non-negative decimal string the decoder returns exactly
12 groups of exactly 4 hexadecimal characters each. -/
theorem decoder_twelve_groups_of_four_hex (s : String)
    (h : validNonnegDecimal s) :
    (splitGenesToQuads s).length = 12 ∧
    (splitGenesToQuads s).all
      (fun g => g.length == 4 && g.data.all isHexChar) := by
  rw [splitGenesToQuads_eq_chunks s (decDigitsToNat s.data)
    (parseBigInt_of_valid s h)]
  constructor
  · simp
  · rw [List.all_eq_true]
    intro g hg
    rw [List.mem_map] at hg
    obtain ⟨idx, hidx, rfl⟩ := hg
    rw [List.mem_range] at hidx
    have hw := hexWindow_length (decDigitsToNat s.data)
    have hlen :
        (((hexWindow (decDigitsToNat s.data)).drop (4 * idx)).take 4).length = 4 := by
      rw [List.length_take, List.length_drop, hw]
      omega
    rw [Bool.and_eq_true]
    constructor
    · rw [beq_iff_eq, List.length_asString, hlen]
    · rw [List.all_eq_true]
      intro c hc
      exact mem_hexWindow_isHexChar _ c
        (List.mem_of_mem_drop (List.mem_of_mem_take hc))

/-- Witness for C2 at the decimal input `"4660"` (hex `1234`). -/
theorem decoder_twelve_groups_of_four_hex_witness :
    (splitGenesToQuads "4660").length = 12 ∧
    (splitGenesToQuads "4660").all
      (fun g => g.length == 4 && g.data.all isHexChar) :=
  decoder_twelve_groups_of_four_hex "4660" (by decide)

/-- **C3.** On a valid non-negative decimal string denoting `n`, the decoder
returns the 12 consecutive 4-digit groups, most-significant end first, of the
rightmost 48 hex digits of the 64-digit zero-padded rendering of `n`; their
concatenation in output order is exactly that 48-digit window. -/
theorem decoder_window_partition (s : String) (n : Nat)
    (hv : validNonnegDecimal s)
    (hp : parseBigInt s = some (Int.ofNat n)) :
    splitGenesToQuads s =
      (List.range 12).map (fun idx =>
        (((lastSlice 48 (padStartZeros 64 (natToHexString n)).data).drop
          (4 * idx)).take 4).asString) ∧
    String.join (splitGenesToQuads s) =
      (lastSlice 48 (padStartZeros 64 (natToHexString n)).data).asString := by
  have hm := splitGenesToQuads_eq_chunks s n hp
  constructor
  · rw [hm, lastSlice_padded]
  · rw [hm]
    apply String.ext
    rw [join_data, List.map_map]
    have hcomp :
        List.map
          (String.data ∘ fun idx => (((hexWindow n).drop (4 * idx)).take 4).asString)
          (List.range 12) =
        List.map (fun idx => ((hexWindow n).drop (4 * idx)).take 4)
          (List.range 12) := by
      apply List.map_congr_left
      intro a _
      rfl
    rw [hcomp, flatten_chunks 12 (hexWindow n) (by rw [hexWindow_length]),
      show (lastSlice 48 (padStartZeros 64 (natToHexString n)).data).asString.data =
        lastSlice 48 (padStartZeros 64 (natToHexString n)).data from rfl,
      lastSlice_padded]

/-- Witness for C3 at `"4660"` (hex `1234`). -/
theorem decoder_window_partition_witness :
    splitGenesToQuads "4660" =
      (List.range 12).map (fun idx =>
        (((lastSlice 48 (padStartZeros 64 (natToHexString 4660)).data).drop
          (4 * idx)).take 4).asString) ∧
    String.join (splitGenesToQuads "4660") =
      (lastSlice 48 (padStartZeros 64 (natToHexString 4660)).data).asString :=
  decoder_window_partition "4660" 4660 (by decide) (by decide)

/-- **C6.** The decoder is total; the parse-failure branch is caught and
mapped to the empty result, so no input ever raises. -/
theorem decoder_never_raises (s : String) (h : parseBigInt s = none) :
    splitGenesToQuads s = [] := by
  unfold splitGenesToQuads
  rw [h]

/-- Witness for C6 at the malformed input `"abc"`. -/
theorem decoder_never_raises_witness : splitGenesToQuads "abc" = [] :=
  decoder_never_raises "abc" (by decide)

/-- **C7.** The decoder is deterministic: equal inputs give equal outputs. -/
theorem decoder_deterministic (s t : String) (h : s = t) :
    splitGenesToQuads s = splitGenesToQuads t := by
  rw [h]

/-- Witness for C7. -/
theorem decoder_deterministic_witness :
    splitGenesToQuads "42" = splitGenesToQuads "42" :=
  decoder_deterministic "42" "42" rfl

/-- **C8.** Every input produces either the empty sequence or exactly 12
groups; no partial sequence is possible. -/
theorem decoder_length_zero_or_twelve (s : String) :
    (splitGenesToQuads s).length = 0 ∨ (splitGenesToQuads s).length = 12 := by
  unfold splitGenesToQuads
  cases hp : parseBigInt s with
  | none => left; rfl
  | some z =>
    right
    exact foldl_cons_range_length _ 12

/-- **C10.** The decoder applies no 256-bit range check: outputs agree
whenever the parsed values are congruent modulo `2 ^ 192`, including values of
`2 ^ 256` or more. -/
theorem decoder_mod_2_pow_192 (s₁ s₂ : String) (n₁ n₂ : Nat)
    (hv₁ : validNonnegDecimal s₁) (hv₂ : validNonnegDecimal s₂)
    (hp₁ : parseBigInt s₁ = some (Int.ofNat n₁))
    (hp₂ : parseBigInt s₂ = some (Int.ofNat n₂))
    (hmod : n₁ % 2 ^ 192 = n₂ % 2 ^ 192) :
    splitGenesToQuads s₁ = splitGenesToQuads s₂ := by
  rw [splitGenesToQuads_eq_chunks s₁ n₁ hp₁,
    splitGenesToQuads_eq_chunks s₂ n₂ hp₂]
  have hw : hexWindow n₁ = hexWindow n₂ := by
    unfold hexWindow
    congr 1
    apply List.map_congr_left
    intro i hi
    rw [List.mem_range] at hi
    rw [hexDigit_mod_2_pow_192 n₁ i hi, hexDigit_mod_2_pow_192 n₂ i hi, hmod]
  rw [hw]

set_option maxRecDepth 100000 in
/-- Witness for C10: `0` and `2 ^ 256` decode identically. -/
theorem decoder_mod_2_pow_192_witness :
    splitGenesToQuads "0" =
      splitGenesToQuads
        "115792089237316195423570985008687907853269984665640564039457584007913129639936" :=
  decoder_mod_2_pow_192 "0"
    "115792089237316195423570985008687907853269984665640564039457584007913129639936"
    0 (2 ^ 256) (by decide) (by decide) (by decide) (by decide) (by decide)

/-- **C4 counterexample.** The empty string is not mapped to the empty
sequence: JS `BigInt("")` is `0n`, so the decoder returns twelve `"0000"`
groups. -/
theorem decoder_empty_string_counterexample :
    splitGenesToQuads "" = List.replicate 12 "0000" ∧
    splitGenesToQuads "" ≠ [] := by
  decide

/-- **C4 amended.** Every input on which BigInt parsing fails (in particular
the non-numeric `"abc"`) yields the empty sequence, but the empty string is
parsed as zero and yields twelve `"0000"` groups. -/
theorem decoder_malformed_amended :
    (∀ s : String, parseBigInt s = none → splitGenesToQuads s = []) ∧
    splitGenesToQuads "abc" = [] ∧
    splitGenesToQuads "" = List.replicate 12 "0000" := by
  refine ⟨?_, by decide, by decide⟩
  intro s h
  unfold splitGenesToQuads
  rw [h]

/-- Witness for the amended C4. -/
theorem decoder_malformed_amended_witness : splitGenesToQuads "abc" = [] :=
  decoder_malformed_amended.1 "abc" (by decide)
